import Mathlib

/-!
Verification of the KVM live storage migration orchestrator
(`kvm-live-storage-migrate.py`).

The Python source is shallowly embedded below:
* `PPath` models `pathlib.PurePosixPath` (parsing, normalization, equality,
  `parent`, `name`),
* `DomainVolumeDesc` models the `DomainVolumeDesc` class, whose fields are
  plain attribute annotations and start out unset (`none` here); reading an
  unset attribute raises `AttributeError`, modelled by `pyAttr` in `Except`,
* `getVolumes`, `removeVolumesAlreadyMigrated`, `getDestinationXML`,
  `checkForOngoingBlockCopy`, `waitForBlockCopy` / `waitForAllBlockCopy` and
  the body of `main` (from the point where the domain XML has been read) are
  translated function by function.
-/

/-- Model of `pathlib.PurePosixPath`: a root (`""`, `"/"` or the special
`"//"`) together with the list of non-empty, non-`"."` components.  pathlib
collapses spurious slashes and single-dot components at construction time and
compares paths by this normalized form; `".."` components and a leading
`"//"` are NOT collapsed. -/
structure PPath where
  root : String
  parts : List String
deriving DecidableEq, Repr

/-- Split a character list at every `/` (the component list of a POSIX path,
with empty components for leading, repeated and trailing slashes) — the
character-level equivalent of `String.splitOn "/"`, written by structural
recursion so that it evaluates inside the kernel. -/
def splitSlash : List Char → List (List Char)
  | [] => [[]]
  | c :: rest =>
      if c = '/' then [] :: splitSlash rest
      else
        match splitSlash rest with
        | comp :: comps => (c :: comp) :: comps
        | [] => [[c]]

/-- `PurePosixPath(s)`: determine the root and split the rest into
components, dropping empty components (repeated or trailing slashes) and
single-dot components.  Exactly two leading slashes give the special root
`"//"`; one, or three or more, give `"/"`. -/
def PPath.parse (s : String) : PPath :=
  let root :=
    match s.data with
    | '/' :: '/' :: '/' :: _ => "/"
    | '/' :: '/' :: _ => "//"
    | '/' :: _ => "/"
    | _ => ""
  let comps := (splitSlash s.data).filter (fun c => c ≠ [] && c ≠ ['.'])
  ⟨root, comps.map (fun c => ⟨c⟩)⟩

/-- `PurePosixPath.parent`: drop the last component; the parent of a pure
root (or of `"."`) is itself. -/
def PPath.parent (p : PPath) : PPath :=
  if p.parts = [] then p else ⟨p.root, p.parts.dropLast⟩

/-- `PurePosixPath.name`: the last component, or `""` when there is none. -/
def PPath.name (p : PPath) : String :=
  match p.parts.getLast? with
  | some n => n
  | none => ""

/-- The `DomainVolumeDesc` class.  In the source its four fields are bare
annotations: an instance starts with every attribute unset, and each branch
of `getVolumes` sets only the attributes of its own kind.  `none` models an
unset attribute (reading it raises `AttributeError`).  `vol_path` holds a
`PurePosixPath` object (it is assigned `pure_path.parent`).  For `vol_name`
in the pool branch the source stores `source.get("volume")`, which can be
Python `None`; that set-to-`None` state is conflated with `none` here — no
operation modelled below distinguishes the two (both only occur for
descriptors that no proved statement reads `vol_name` from). -/
structure DomainVolumeDesc where
  vol_type : Option String := none
  vol_path : Option PPath := none
  vol_name : Option String := none
  vol_pool : Option String := none
deriving DecidableEq, Repr

/-- Reading a Python attribute (or calling `.get` on the result of a failed
`find`): `none` means the attribute is unset / the object is `None`, and the
read raises. -/
def pyAttr {α : Type} (x : Option α) : Except String α :=
  match x with
  | some v => .ok v
  | none => .error "AttributeError"

/-- Rendering a possibly-`None` Python string in an f-string. -/
def pyFStr (x : Option String) : String :=
  match x with
  | some s => s
  | none => "None"

/-- The `<source>` element of a disk: its `file`, `pool` and `volume`
attributes (`none` when the attribute is absent, so `.get` returns `None`). -/
structure SourceElem where
  file : Option String
  pool : Option String
  volume : Option String
deriving DecidableEq, Repr

/-- One `<disk>` element of the domain XML.  `target` is the `<target>`
child element (outer `none` when absent, in which case `.get("dev")` raises);
the inner option is its `dev` attribute.  `source` is the `<source>` child
element. -/
structure DiskXML where
  target : Option (Option String)
  source : Option SourceElem
deriving DecidableEq, Repr

/-- The descriptor built for one disk (`getVolumes` lines 105-114): the file
branch parses the backing file path and stores its parent and name, the pool
branch stores the pool and volume attributes, and a source with neither a
`file` nor a `pool` attribute leaves every field unset. -/
def descOf (source : SourceElem) : DomainVolumeDesc :=
  match source.file with
  | some f =>
      let pure_path := PPath.parse f
      { vol_type := some "file", vol_path := some pure_path.parent,
        vol_name := some pure_path.name }
  | none =>
      match source.pool with
      | some p =>
          { vol_type := some "pool", vol_pool := some p,
            vol_name := source.volume }
      | none => {}

/-- Processing of one disk element: `disk.find("target").get("dev")` raises
when the `<target>` element is absent, `source.get(...)` raises when the
`<source>` element is absent; nothing else can fail. -/
def diskEntry (disk : DiskXML) : Except String (Option String × DomainVolumeDesc) := do
  let target_id ← pyAttr disk.target
  let source ← pyAttr disk.source
  pure (target_id, descOf source)

/-- Python dict assignment `m[k] = v`: overwrite in place when the key is
present, append otherwise. -/
def dictInsert {K : Type} [DecidableEq K] {V : Type} (k : K) (v : V) :
    List (K × V) → List (K × V)
  | [] => [(k, v)]
  | (k', v') :: rest => if k' = k then (k, v) :: rest else (k', v') :: dictInsert k v rest

/-- Loop of `getVolumes`: build the disk map in document order. -/
def getVolumesLoop : List DiskXML → List (Option String × DomainVolumeDesc) →
    Except String (List (Option String × DomainVolumeDesc))
  | [], disk_map => .ok disk_map
  | disk :: rest, disk_map => do
      let entry ← diskEntry disk
      getVolumesLoop rest (dictInsert entry.1 entry.2 disk_map)

/-- `getVolumes` (lines 97-117): one descriptor per `<disk>` element, keyed
by the (possibly absent) `dev` attribute of its `<target>` element. -/
def getVolumes (disks : List DiskXML) :
    Except String (List (Option String × DomainVolumeDesc)) :=
  getVolumesLoop disks []

/-- The guard `filepath is None == pool is None` appearing in `main`,
`removeVolumesAlreadyMigrated`, `getDestinationXML` and
`printVolumesAndDestinations`.  Python parses this as the CHAINED comparison
`(filepath is None) and (None == pool) and (pool is None)` — `None == pool`
holds exactly when `pool` is `None` — so the guard is true only when BOTH
destinations are absent. -/
def destGuard (pool filepath : Option String) : Bool :=
  filepath.isNone && (pool.isNone && pool.isNone)

/-- The per-volume test of `removeVolumesAlreadyMigrated` (lines 126-131).
With a filepath destination: `vol_type == "file" and
PurePosixPath(vol_path) == PurePosixPath(filepath)` (short-circuit: the
second attribute is only read when the first comparison holds; constructing
a `PurePosixPath` from the stored `PurePosixPath` is the identity).  With no
filepath: `vol_type == "pool" and vol_pool == pool` (a Python `==` between a
string and `None` is `False`, matching the `Option` equality used here). -/
def shouldRemove (pool filepath : Option String) (d : DomainVolumeDesc) :
    Except String Bool :=
  match filepath with
  | some fp => do
      let t ← pyAttr d.vol_type
      if t = "file" then do
        let p ← pyAttr d.vol_path
        pure (decide (p = PPath.parse fp))
      else
        pure false
  | none => do
      let t ← pyAttr d.vol_type
      if t = "pool" then do
        let pl ← pyAttr d.vol_pool
        pure (decide (some pl = pool))
      else
        pure false

/-- First phase of `removeVolumesAlreadyMigrated` (lines 123-131): collect
`devs_to_remove` in iteration order. -/
def collectDevsToRemove {K : Type} (pool filepath : Option String) :
    List (K × DomainVolumeDesc) → Except String (List K)
  | [] => .ok []
  | (target_dev, d) :: rest => do
      let b ← shouldRemove pool filepath d
      let tail ← collectDevsToRemove pool filepath rest
      pure (if b then target_dev :: tail else tail)

/-- Python `dict.pop(k)`: return the value stored at `k` and the dict without
that entry; raises `KeyError` when the key is absent. -/
def dictPop {K : Type} [DecidableEq K] {V : Type} (k : K) :
    List (K × V) → Except String (V × List (K × V))
  | [] => .error "KeyError"
  | (k', v) :: rest =>
      if k' = k then .ok (v, rest)
      else do
        let (v', rest') ← dictPop k rest
        pure (v', (k', v) :: rest')

/-- Second phase of `removeVolumesAlreadyMigrated` (lines 133-134): pop each
collected device out of `volumes` into `migrated_volumes`.  Returns the
mutated `volumes` (the pending set) together with `migrated_volumes`. -/
def popLoop {K : Type} [DecidableEq K] :
    List K → List (K × DomainVolumeDesc) → List (K × DomainVolumeDesc) →
    Except String (List (K × DomainVolumeDesc) × List (K × DomainVolumeDesc))
  | [], volumes, migrated => .ok (volumes, migrated)
  | target_dev :: rest, volumes, migrated => do
      let (v, volumes') ← dictPop target_dev volumes
      popLoop rest volumes' (migrated ++ [(target_dev, v)])

/-- `removeVolumesAlreadyMigrated` (lines 119-136).  The result pair is
(`volumes` after its in-place mutation — the pending set, `migrated_volumes`).
The entry guard is the chained-comparison `destGuard`. -/
def removeVolumesAlreadyMigrated {K : Type} [DecidableEq K]
    (volumes : List (K × DomainVolumeDesc)) (pool filepath : Option String) :
    Except String (List (K × DomainVolumeDesc) × List (K × DomainVolumeDesc)) :=
  if destGuard pool filepath then
    .error "Must specify EITHER pool or filepath, but not both."
  else do
    let devs_to_remove ← collectDevsToRemove pool filepath volumes
    popLoop devs_to_remove volumes []

/-- The already-migrated classification as a total Boolean predicate; for
well-formed descriptors `shouldRemove` computes exactly this (see
`shouldRemove_eq_migratedB`). -/
def migratedB (pool filepath : Option String) (d : DomainVolumeDesc) : Bool :=
  match filepath with
  | some fp => decide (d.vol_type = some "file") && decide (d.vol_path = some (PPath.parse fp))
  | none =>
      decide (d.vol_type = some "pool") &&
        (match d.vol_pool with
         | some pl => decide (some pl = pool)
         | none => false)

/-- Well-formedness of a descriptor, exactly the attributes the partitioner
reads: `vol_type` is set, and the field of the matching kind is set.  Every
descriptor `getVolumes` builds from a disk with a file or pool source
satisfies this. -/
def wfDesc (d : DomainVolumeDesc) : Bool :=
  match d.vol_type with
  | some "file" => d.vol_path.isSome
  | some "pool" => d.vol_pool.isSome
  | some _ => true
  | none => false

/-- A valid destination: exactly one of pool / filepath is given. -/
def exactlyOneDest (pool filepath : Option String) : Bool :=
  pool.isSome != filepath.isSome

/-- An apostrophe, written without a literal quote character. -/
def sqch : String := ⟨[Char.ofNat 39]⟩

/-- `getDestinationXML` (lines 139-154): build the destination `<disk>`
description.  The entry guard is the same chained comparison `destGuard`;
`{volume_description.vol_name}` raises when the attribute is unset. -/
def getDestinationXML (d : DomainVolumeDesc) (pool filepath : Option String) :
    Except String String :=
  if destGuard pool filepath then
    .error "Must specify EITHER pool OR filepath, but not both."
  else do
  let head :=
    if filepath.isSome then
      "<disk type=" ++ sqch ++ "file" ++ sqch ++ " device=" ++ sqch ++ "disk" ++ sqch ++ ">"
    else
      "<disk type=" ++ sqch ++ "volume" ++ sqch ++ " device=" ++ sqch ++ "disk" ++ sqch ++ ">"
  let driver := "<driver name=" ++ sqch ++ "qemu" ++ sqch ++ " type=" ++ sqch ++ "qcow2" ++ sqch ++ "/>"
  let n ← pyAttr d.vol_name
  let src :=
    match filepath with
    | some fp => "<source file=" ++ sqch ++ fp ++ "/" ++ n ++ sqch ++ "/>"
    | none =>
        "<source pool=" ++ sqch ++ pyFStr pool ++ sqch ++ " volume=" ++ sqch ++ n ++ sqch ++ "/>"
  pure (head ++ driver ++ src ++ "</disk>")

/-- `checkForOngoingBlockCopy` (lines 156-161): a device is in the ongoing
set iff `len(domain.blockJobInfo(dev))` is non-zero.  `jobLen` models the
length of the job-info dict the hypervisor returns per device. -/
def checkForOngoingBlockCopy {K : Type} (jobLen : K → Nat) (target_devs : List K) :
    List K :=
  target_devs.filter (fun target_dev => jobLen target_dev != 0)

/-- Observable hypervisor interactions of one session run.  Read-only calls
(`blockJobInfo` queries, `XMLDesc`) and console printing are not recorded;
`monitor` stands for the read-only polling loop `waitForAllBlockCopy`
(modelled in detail as `waitAllGo` below). -/
inductive Event (K : Type) where
  | backupWrite : Event K
  | undefine : Event K
  | launch : K → Event K
  | monitor : List K → Event K
  | pivot : K → Event K
  | define : Event K
deriving DecidableEq, Repr

/-- How one run of `main` terminates (from the point where the domain XML has
been read). -/
inductive Outcome where
  | doneNoop : Outcome
  | resumed : Outcome
  | declined : Outcome
  | completed : Outcome
  | error : String → Outcome
deriving DecidableEq, Repr

/-- Process exit status of each outcome: `exit(0)` for the no-op, resume and
full-completion paths, `exit(1)` for a declined confirmation, and the
non-zero status of an uncaught exception otherwise. -/
def exitCode : Outcome → Nat
  | .doneNoop => 0
  | .resumed => 0
  | .declined => 1
  | .completed => 0
  | .error _ => 1

/-- The launch loop of `main` (lines 86-88): for each pending volume build
the destination XML and issue `blockCopy`.  `blockCopyOk` tells whether the
hypervisor accepts the copy request for a device; a raised `libvirtError` is
uncaught in the source, so the loop stops at the first failure. -/
def launchLoop {K : Type} (blockCopyOk : K → Bool) (pool filepath : Option String) :
    List (K × DomainVolumeDesc) → List (Event K) × Option String
  | [] => ([], none)
  | (target_dev, d) :: rest =>
      match getDestinationXML d pool filepath with
      | .error e => ([], some e)
      | .ok _ =>
          if blockCopyOk target_dev then
            let (es, err) := launchLoop blockCopyOk pool filepath rest
            (Event.launch target_dev :: es, err)
          else
            ([Event.launch target_dev], some "libvirtError: blockCopy")

/-- The body of `main` from line 55 on, as a function of the parsed volume
map, the destination arguments, the hypervisor's job-info responses at
resume-check time, the hypervisor's acceptance of `blockCopy` calls and the
operator's answer to the confirmation prompt.  The result is the ordered list
of observable events together with the outcome.  `printParsedInfo` (line 57)
only builds and prints strings, so it contributes no event; `undefineFlags`
is called with `VIR_DOMAIN_UNDEFINE_KEEP_NVRAM`; `waitForAllBlockCopy` and
`pivotAllBlockCopyJobs` / `defineXML` are modelled as infallible here (a
`libvirtError` raised there would likewise abort the run — no claim below
depends on those failure modes). -/
def mainSession {K : Type} [DecidableEq K]
    (volumes : List (K × DomainVolumeDesc)) (pool filepath : Option String)
    (jobLen : K → Nat) (blockCopyOk : K → Bool) (proceed : Bool) :
    List (Event K) × Outcome :=
  match removeVolumesAlreadyMigrated volumes pool filepath with
  | .error e => ([], .error e)
  | .ok (pending, _migrated_volumes) =>
      if pending.length = 0 then
        ([], .doneNoop)
      else
        let devs_with_ongoing_jobs :=
          checkForOngoingBlockCopy jobLen (pending.map Prod.fst)
        if devs_with_ongoing_jobs.length ≠ 0 then
          (Event.monitor devs_with_ongoing_jobs ::
             devs_with_ongoing_jobs.map Event.pivot, .resumed)
        else if proceed = false then
          ([], .declined)
        else
          match launchLoop blockCopyOk pool filepath pending with
          | (les, some e) =>
              (Event.backupWrite :: Event.undefine :: les, .error e)
          | (les, none) =>
              (Event.backupWrite :: Event.undefine :: les ++
                 Event.monitor (pending.map Prod.fst) ::
                   (pending.map Prod.fst).map Event.pivot ++ [Event.define],
               .completed)

/-- The dict `domain.blockJobInfo(dev)` returns while polling: either empty
(`absent` — no job) or carrying the `cur` and `end` progress counters
(`endv` is the `end` counter; both are non-negative, libvirt reports
unsigned values). -/
inductive JobResp where
  | absent : JobResp
  | status : Nat → Nat → JobResp
deriving DecidableEq, Repr

/-- The guard `"cur" in job_status and job_status['cur'] < job_status['end']`
shared by `waitForBlockCopy` (line 167) and `waitForAllBlockCopy`
(line 185). -/
def activeGuard : JobResp → Bool
  | .absent => false
  | .status cur endv => cur < endv

/-- The progress expression `100 * job_status['cur'] // job_status['end']`
(lines 168 and 186).  In Python a zero divisor raises `ZeroDivisionError`;
both call sites evaluate this only under `activeGuard`, which forces the
divisor positive (claim C9), so the Lean total division never differs from
the source on a reachable input. -/
def jobProgress : JobResp → Nat
  | .absent => 0
  | .status cur endv => 100 * cur / endv

/-- `waitForBlockCopy` (lines 164-174): poll one device once per tick,
printing the guarded percentage, until the job is absent or `cur >= end`;
the final tick prints 100.  `resp t` is the hypervisor's job status at tick
`t`; `fuel` bounds the number of ticks (the source loop is unbounded). -/
def waitOne (resp : Nat → JobResp) : Nat → Nat → List Nat
  | 0, _ => []
  | fuel + 1, t =>
      if activeGuard (resp t) then
        jobProgress (resp t) :: waitOne resp fuel (t + 1)
      else
        [100]

/-- One polling tick of `waitForAllBlockCopy` (lines 180-190): for each
device in order, report 100 if it is already complete, else query its job
status and report the guarded percentage, marking it complete (and reporting
100) when the job is absent or `cur >= end`.  Returns the per-device reports
of the tick and the updated complete set (`devs_complete` is a set; only
fresh devices are appended, so the list stays duplicate-free). -/
def tickAll {K : Type} [DecidableEq K] (resp : K → JobResp) :
    List K → List K → List (K × Nat) × List K
  | done, [] => ([], done)
  | done, target_dev :: rest =>
      if target_dev ∈ done then
        let (rs, done') := tickAll resp done rest
        ((target_dev, 100) :: rs, done')
      else if activeGuard (resp target_dev) then
        let (rs, done') := tickAll resp done rest
        ((target_dev, jobProgress (resp target_dev)) :: rs, done')
      else
        let (rs, done') := tickAll resp (done ++ [target_dev]) rest
        ((target_dev, 100) :: rs, done')

/-- The loop of `waitForAllBlockCopy` (lines 176-192): tick while
`len(devs_complete) < len(target_devs)`.  `resp t dev` is the job status the
hypervisor reports for `dev` at tick `t`; `fuel` bounds the number of ticks.
The result is the list of per-tick report lists. -/
def waitAllGo {K : Type} [DecidableEq K] (resp : Nat → K → JobResp)
    (target_devs : List K) : Nat → Nat → List K → List (List (K × Nat))
  | 0, _, _ => []
  | fuel + 1, t, devs_complete =>
      if devs_complete.length < target_devs.length then
        let (reports, done') := tickAll (resp t) devs_complete target_devs
        reports :: waitAllGo resp target_devs fuel (t + 1) done'
      else []

/-- Look a device's reported percentage up in one tick's report list. -/
def lookupDev {K : Type} [DecidableEq K] (d : K) : List (K × Nat) → Option Nat
  | [] => none
  | (k, v) :: rest => if k = d then some v else lookupDev d rest

/-! ### Basic lemmas about the partitioner -/

theorem exc_ok_bind {ε α β : Type} (a : α) (f : α → Except ε β) :
    (Except.ok a >>= f : Except ε β) = f a := rfl

theorem exc_error_bind {ε α β : Type} (e : ε) (f : α → Except ε β) :
    (Except.error e >>= f : Except ε β) = .error e := rfl

theorem exc_pure {ε α : Type} (a : α) : (pure a : Except ε α) = .ok a := rfl

theorem destGuard_false_of_exactlyOne {pool filepath : Option String}
    (h : exactlyOneDest pool filepath = true) : destGuard pool filepath = false := by
  cases pool <;> cases filepath <;> simp_all [exactlyOneDest, destGuard]

theorem removeVolumes_ok_destGuard {K : Type} [DecidableEq K]
    {volumes : List (K × DomainVolumeDesc)} {pool filepath : Option String}
    {pr : List (K × DomainVolumeDesc) × List (K × DomainVolumeDesc)}
    (h : removeVolumesAlreadyMigrated volumes pool filepath = .ok pr) :
    destGuard pool filepath = false := by
  by_cases hg : destGuard pool filepath = true
  · simp [removeVolumesAlreadyMigrated, hg] at h
  · simpa using hg

theorem shouldRemove_eq_migratedB {pool filepath : Option String}
    {d : DomainVolumeDesc} (hwf : wfDesc d = true) :
    shouldRemove pool filepath d = .ok (migratedB pool filepath d) := by
  cases filepath with
  | some fp =>
      cases ht : d.vol_type with
      | none => simp [wfDesc, ht] at hwf
      | some t =>
          by_cases hfile : t = "file"
          · subst hfile
            cases hp : d.vol_path with
            | none => simp [wfDesc, ht, hp] at hwf
            | some p =>
                simp [shouldRemove, migratedB, ht, hp, pyAttr, exc_ok_bind, exc_pure]
          · simp [shouldRemove, migratedB, ht, hfile, pyAttr, exc_ok_bind, exc_pure]
  | none =>
      cases ht : d.vol_type with
      | none => simp [wfDesc, ht] at hwf
      | some t =>
          by_cases hpool : t = "pool"
          · subst hpool
            cases hp : d.vol_pool with
            | none => simp [wfDesc, ht, hp] at hwf
            | some pl =>
                simp [shouldRemove, migratedB, ht, hp, pyAttr, exc_ok_bind, exc_pure]
          · simp [shouldRemove, migratedB, ht, hpool, pyAttr, exc_ok_bind, exc_pure]

theorem collectDevsToRemove_ok {K : Type} {pool filepath : Option String}
    (volumes : List (K × DomainVolumeDesc))
    (h : ∀ kv ∈ volumes, shouldRemove pool filepath kv.2
            = .ok (migratedB pool filepath kv.2)) :
    collectDevsToRemove pool filepath volumes
      = .ok ((volumes.filter (fun kv => migratedB pool filepath kv.2)).map Prod.fst) := by
  induction volumes with
  | nil => rfl
  | cons kv rest ih =>
      have hkv := h kv (List.mem_cons_self kv rest)
      have hrest := ih (fun kv' h' => h kv' (List.mem_cons_of_mem kv h'))
      obtain ⟨k, d⟩ := kv
      by_cases hb : migratedB pool filepath d = true
      · simp [collectDevsToRemove, hkv, hrest, hb, exc_ok_bind, exc_pure,
          List.filter_cons]
      · simp [collectDevsToRemove, hkv, hrest, hb, exc_ok_bind, exc_pure,
          List.filter_cons]

theorem filter_ne_eq_self {K V : Type} [DecidableEq K] {m : List (K × V)} {k : K}
    (h : k ∉ m.map Prod.fst) :
    m.filter (fun kv => !decide (kv.1 = k)) = m := by
  refine List.filter_eq_self.mpr ?_
  intro kv hkv
  simp only [Bool.not_eq_true', decide_eq_false_iff_not]
  intro he
  exact h (by rw [← he]; exact List.mem_map_of_mem Prod.fst hkv)

theorem dictPop_mem {K V : Type} [DecidableEq K] {m : List (K × V)} {k : K} {v : V}
    (hnd : (m.map Prod.fst).Nodup) (hmem : (k, v) ∈ m) :
    dictPop k m = .ok (v, m.filter (fun kv => !decide (kv.1 = k))) := by
  induction m with
  | nil => simp at hmem
  | cons kv rest ih =>
      obtain ⟨k', v'⟩ := kv
      have hnd' : (rest.map Prod.fst).Nodup := (List.nodup_cons.mp hnd).2
      have hknotin : k' ∉ rest.map Prod.fst := (List.nodup_cons.mp hnd).1
      by_cases hk : k' = k
      · subst hk
        have hv : v' = v := by
          rcases List.mem_cons.mp hmem with h | h
          · exact (Prod.mk.injEq _ _ _ _ ▸ h.symm).2
          · exact absurd (by simpa using List.mem_map_of_mem Prod.fst h) hknotin
        subst hv
        simp [dictPop, List.filter_cons, filter_ne_eq_self hknotin]
      · have hmem' : (k, v) ∈ rest := by
          rcases List.mem_cons.mp hmem with h | h
          · exact absurd (congrArg Prod.fst h.symm) hk
          · exact h
        simp [dictPop, hk, ih hnd' hmem', exc_ok_bind, exc_pure, List.filter_cons]

theorem popLoop_skip {K : Type} [DecidableEq K] {k0 : K} {v0 : DomainVolumeDesc}
    (devs : List K) (m acc : List (K × DomainVolumeDesc))
    (h : ∀ k ∈ devs, k ≠ k0) :
    popLoop devs ((k0, v0) :: m) acc
      = Except.map (fun pr => ((k0, v0) :: pr.1, pr.2)) (popLoop devs m acc) := by
  induction devs generalizing m acc with
  | nil => rfl
  | cons k rest ih =>
      have hk : ¬(k0 = k) := fun he => h k (List.mem_cons_self k rest) he.symm
      cases hpop : dictPop k m with
      | error e =>
          simp [popLoop, dictPop, hk, hpop, exc_error_bind, Except.map]
      | ok pr =>
          obtain ⟨v, m'⟩ := pr
          have := ih m' (acc ++ [(k, v)]) (fun k' h' => h k' (List.mem_cons_of_mem k h'))
          simp [popLoop, dictPop, hk, hpop, exc_ok_bind, exc_pure, this]

theorem popLoop_partition {K : Type} [DecidableEq K]
    (P : K × DomainVolumeDesc → Bool) :
    ∀ (volumes acc : List (K × DomainVolumeDesc)),
    (volumes.map Prod.fst).Nodup →
    popLoop ((volumes.filter P).map Prod.fst) volumes acc
      = .ok (volumes.filter (fun kv => !(P kv)), acc ++ volumes.filter P) := by
  intro volumes
  induction volumes with
  | nil => intro acc _; simp [popLoop]
  | cons kv rest ih =>
      intro acc hnd
      obtain ⟨k, v⟩ := kv
      have hnd' : (rest.map Prod.fst).Nodup := (List.nodup_cons.mp (by simpa using hnd)).2
      have hknotin : k ∉ rest.map Prod.fst := (List.nodup_cons.mp (by simpa using hnd)).1
      by_cases hP : P (k, v) = true
      · have hpop : dictPop k ((k, v) :: rest) = .ok (v, rest) := by
          simp [dictPop]
        simp only [List.filter_cons, hP, if_pos, List.map_cons]
        rw [popLoop, hpop]
        simp only [exc_ok_bind]
        rw [ih (acc ++ [(k, v)]) hnd']
        simp [hP, List.append_assoc]
      · have hskip : ∀ k' ∈ (rest.filter P).map Prod.fst, k' ≠ k := by
          intro k' hk' he
          subst he
          exact hknotin (by
            rcases List.mem_map.mp hk' with ⟨kv', hkv', hfst⟩
            exact hfst ▸ List.mem_map_of_mem Prod.fst (List.mem_of_mem_filter hkv'))
        simp only [List.filter_cons, hP, List.map_cons]
        rw [if_neg (by simp [hP])]
        rw [popLoop_skip _ _ _ hskip, ih acc hnd']
        simp [hP, Except.map]

theorem removeVolumes_partition {K : Type} [DecidableEq K]
    (volumes : List (K × DomainVolumeDesc)) (pool filepath : Option String)
    (hdest : destGuard pool filepath = false)
    (hwf : ∀ kv ∈ volumes, wfDesc kv.2 = true)
    (hnd : (volumes.map Prod.fst).Nodup) :
    removeVolumesAlreadyMigrated volumes pool filepath
      = .ok (volumes.filter (fun kv => !(migratedB pool filepath kv.2)),
             volumes.filter (fun kv => migratedB pool filepath kv.2)) := by
  have hcollect := @collectDevsToRemove_ok K pool filepath volumes
    (fun kv h => shouldRemove_eq_migratedB (hwf kv h))
  have hpop := popLoop_partition (fun kv => migratedB pool filepath kv.2) volumes [] hnd
  simp [removeVolumesAlreadyMigrated, hdest, hcollect, hpop, exc_ok_bind]

/-! ### Claim theorems -/

/-- C1 (code bug evaluation): the destination guard
`filepath is None == pool is None` is a chained comparison that holds only
when BOTH destinations are absent.  Hence `removeVolumesAlreadyMigrated`
(and the identical check in `main`) accepts the both-given input instead of
failing as specified: with `--pool pool-a --filepath /data/pool-b` the guard
is false and the call succeeds, while the neither-given input raises; with
exactly one destination the guard is false and no failure occurs. -/
theorem C1_destination_guard_code_bug :
    destGuard (some "pool-a") (some "/data/pool-b") = false
    ∧ removeVolumesAlreadyMigrated ([] : List (String × DomainVolumeDesc))
        (some "pool-a") (some "/data/pool-b") = .ok ([], [])
    ∧ removeVolumesAlreadyMigrated ([] : List (String × DomainVolumeDesc))
        none none = .error "Must specify EITHER pool or filepath, but not both."
    ∧ destGuard none (some "/data/pool-b") = false
    ∧ destGuard (some "pool-a") none = false
    ∧ destGuard none none = true := by
  refine ⟨rfl, rfl, rfl, rfl, rfl, rfl⟩

/-- C3: for every volume map with distinct device keys, well-formed
descriptors and a valid destination, the partitioner succeeds and splits the
map into pending / already-migrated buckets that cover the input exactly and
are key-disjoint: every input entry lands in exactly one bucket and the
buckets contain nothing else. -/
theorem nodup_keys_val_eq {K V : Type} :
    ∀ {l : List (K × V)}, (l.map Prod.fst).Nodup →
    ∀ {k : K} {v1 v2 : V}, (k, v1) ∈ l → (k, v2) ∈ l → v1 = v2 := by
  intro l
  induction l with
  | nil => intro _ k v1 v2 h1 _; simp at h1
  | cons kv rest ih =>
      intro hnd k v1 v2 h1 h2
      obtain ⟨k0, v0⟩ := kv
      have hk0 : k0 ∉ rest.map Prod.fst := (List.nodup_cons.mp hnd).1
      have hnd' : (rest.map Prod.fst).Nodup := (List.nodup_cons.mp hnd).2
      rcases List.mem_cons.mp h1 with ha | ha <;> rcases List.mem_cons.mp h2 with hb | hb
      · rw [Prod.mk.injEq] at ha hb
        rw [ha.2, hb.2]
      · exfalso
        rw [Prod.mk.injEq] at ha
        exact hk0 (ha.1 ▸ List.mem_map_of_mem Prod.fst hb)
      · exfalso
        rw [Prod.mk.injEq] at hb
        exact hk0 (hb.1 ▸ List.mem_map_of_mem Prod.fst ha)
      · exact ih hnd' ha hb

/-- C3: for every volume map with distinct device keys, well-formed
descriptors and a valid destination, the partitioner succeeds and splits the
map into pending / already-migrated buckets that cover the input exactly and
are key-disjoint: every input entry lands in exactly one bucket and the
buckets contain nothing else. -/
theorem C3_partition_disjoint_union {K : Type} [DecidableEq K]
    (volumes : List (K × DomainVolumeDesc)) (pool filepath : Option String)
    (hdest : exactlyOneDest pool filepath = true)
    (hwf : ∀ kv ∈ volumes, wfDesc kv.2 = true)
    (hnd : (volumes.map Prod.fst).Nodup) :
    ∃ pending migrated,
      removeVolumesAlreadyMigrated volumes pool filepath = .ok (pending, migrated)
      ∧ (∀ kv, kv ∈ volumes ↔ (kv ∈ pending ∨ kv ∈ migrated))
      ∧ (∀ k, k ∈ pending.map Prod.fst → k ∉ migrated.map Prod.fst)
      ∧ (∀ kv, ¬(kv ∈ pending ∧ kv ∈ migrated)) := by
  refine ⟨_, _, removeVolumes_partition volumes pool filepath
    (destGuard_false_of_exactlyOne hdest) hwf hnd, ?_, ?_, ?_⟩
  · intro kv
    constructor
    · intro hmem
      by_cases hP : migratedB pool filepath kv.2 = true
      · exact Or.inr (List.mem_filter.mpr ⟨hmem, by simp [hP]⟩)
      · exact Or.inl (List.mem_filter.mpr ⟨hmem, by simp [hP]⟩)
    · intro h
      rcases h with h | h
      · exact List.mem_of_mem_filter h
      · exact List.mem_of_mem_filter h
  · intro k hkp hkm
    rcases List.mem_map.mp hkp with ⟨kv1, hkv1, hk1⟩
    rcases List.mem_map.mp hkm with ⟨kv2, hkv2, hk2⟩
    have h1m := List.mem_of_mem_filter hkv1
    have h2m := List.mem_of_mem_filter hkv2
    have h1P := List.of_mem_filter hkv1
    have h2P := List.of_mem_filter hkv2
    have h1m' : (k, kv1.2) ∈ volumes := by
      rw [← hk1]
      simpa using h1m
    have h2m' : (k, kv2.2) ∈ volumes := by
      rw [← hk2]
      simpa using h2m
    have hv : kv1.2 = kv2.2 := nodup_keys_val_eq hnd h1m' h2m'
    rw [hv, h2P] at h1P
    exact absurd h1P (by simp)
  · intro kv hkv
    have h1 := List.of_mem_filter hkv.1
    have h2 := List.of_mem_filter hkv.2
    rw [h2] at h1
    exact absurd h1 (by simp)

/-- Example file-backed descriptor: `/data/pool-a/web01.qcow2`. -/
def exF : DomainVolumeDesc :=
  { vol_type := some "file", vol_path := some ⟨"/", ["data", "pool-a"]⟩,
    vol_name := some "web01.qcow2" }

/-- Example pool-backed descriptor: volume `web01-b` in pool `fast-ssd`. -/
def exP : DomainVolumeDesc :=
  { vol_type := some "pool", vol_name := some "web01-b", vol_pool := some "fast-ssd" }

theorem C3_partition_disjoint_union_witness :
    exactlyOneDest none (some "/data/pool-b") = true
    ∧ (∀ kv ∈ [("vda", exF), ("vdb", exP)], wfDesc kv.2 = true)
    ∧ ((([("vda", exF), ("vdb", exP)] : List (String × DomainVolumeDesc)).map
          Prod.fst).Nodup)
    ∧ (∃ pending migrated,
        removeVolumesAlreadyMigrated [("vda", exF), ("vdb", exP)] none
            (some "/data/pool-b") = .ok (pending, migrated)
        ∧ (∀ kv, kv ∈ [("vda", exF), ("vdb", exP)] ↔ (kv ∈ pending ∨ kv ∈ migrated))
        ∧ (∀ k, k ∈ pending.map Prod.fst → k ∉ migrated.map Prod.fst)
        ∧ (∀ kv, ¬(kv ∈ pending ∧ kv ∈ migrated))) :=
  ⟨by decide, by decide, by decide,
   C3_partition_disjoint_union [("vda", exF), ("vdb", exP)] none (some "/data/pool-b")
     (by decide) (by decide) (by decide)⟩

/-- C4: classification rules of the partitioner, stated per descriptor.  A
file-backed disk against a filepath destination is already migrated exactly
when its stored directory equals the parsed (normalized) destination path; a
pool-backed disk against a pool destination exactly when the pool names are
equal; a disk whose kind differs from the destination kind is always
pending.  The final conjuncts show the comparison is `PurePosixPath`
normalization, not string equality: a trailing separator and a single-dot
segment normalize away while the strings differ. -/
theorem C4_migrated_classification (d : DomainVolumeDesc) (fp pl s : String)
    (p : PPath) :
    (d.vol_type = some "file" → d.vol_path = some p →
        shouldRemove none (some fp) d = .ok (decide (p = PPath.parse fp)))
    ∧ (d.vol_type = some "pool" → d.vol_pool = some s →
        shouldRemove (some pl) none d = .ok (decide (s = pl)))
    ∧ (d.vol_type = some "pool" → shouldRemove none (some fp) d = .ok false)
    ∧ (d.vol_type = some "file" → shouldRemove (some pl) none d = .ok false)
    ∧ PPath.parse "/data/pool-b/" = PPath.parse "/data/pool-b"
    ∧ PPath.parse "/data/./pool-b" = PPath.parse "/data/pool-b"
    ∧ ("/data/pool-b/" : String) ≠ "/data/pool-b" := by
  refine ⟨?_, ?_, ?_, ?_, by decide, by decide, by decide⟩
  · intro ht hp
    simp [shouldRemove, ht, hp, pyAttr, exc_ok_bind, exc_pure]
  · intro ht hp
    simp [shouldRemove, ht, hp, pyAttr, exc_ok_bind, exc_pure]
  · intro ht
    simp [shouldRemove, ht, pyAttr, exc_ok_bind, exc_pure]
  · intro ht
    simp [shouldRemove, ht, pyAttr, exc_ok_bind, exc_pure]

theorem C4_migrated_classification_witness :
    (exF.vol_type = some "file" ∧ exF.vol_path = some ⟨"/", ["data", "pool-a"]⟩
      ∧ exP.vol_type = some "pool" ∧ exP.vol_pool = some "fast-ssd")
    ∧ shouldRemove none (some "/data/pool-a/") exF = .ok true
    ∧ shouldRemove none (some "/data/pool-b") exF = .ok false
    ∧ shouldRemove (some "fast-ssd") none exP = .ok true
    ∧ shouldRemove (some "slow-hdd") none exP = .ok false
    ∧ shouldRemove none (some "/data/pool-a") exP = .ok false
    ∧ shouldRemove (some "fast-ssd") none exF = .ok false := by
  have h := C4_migrated_classification exF "/data/pool-a/" "fast-ssd" "fast-ssd"
    ⟨"/", ["data", "pool-a"]⟩
  have h2 := C4_migrated_classification exP "/data/pool-a" "fast-ssd" "fast-ssd"
    ⟨"/", ["data", "pool-a"]⟩
  have h3 := C4_migrated_classification exP "/data/pool-a" "slow-hdd" "fast-ssd"
    ⟨"/", ["data", "pool-a"]⟩
  refine ⟨⟨rfl, rfl, rfl, rfl⟩, ?_, ?_, ?_, ?_, ?_, ?_⟩
  · exact (h.1 rfl rfl).trans (congrArg Except.ok (by decide))
  · exact ((C4_migrated_classification exF "/data/pool-b" "fast-ssd" "fast-ssd"
      ⟨"/", ["data", "pool-a"]⟩).1 rfl rfl).trans (congrArg Except.ok (by decide))
  · exact (h2.2.1 rfl rfl).trans (congrArg Except.ok (by decide))
  · exact (h3.2.1 rfl rfl).trans (congrArg Except.ok (by decide))
  · exact h2.2.2.1 rfl
  · exact h.2.2.2.1 rfl

/-- C9: the guard shared by both monitor loops implies the job status is a
populated dict whose counters satisfy `cur < end`; with non-negative
counters (libvirt reports unsigned values, hence the `Nat` embedding) the
divisor of `100 * cur // end` is therefore strictly positive and the
division-by-zero branch is unreachable. -/
theorem C9_division_guard (r : JobResp) (h : activeGuard r = true) :
    ∃ cur endv, r = .status cur endv ∧ cur < endv ∧ 0 < endv
      ∧ jobProgress r = 100 * cur / endv := by
  cases r with
  | absent => simp [activeGuard] at h
  | status cur endv =>
      have hlt : cur < endv := by simpa [activeGuard] using h
      exact ⟨cur, endv, rfl, hlt, Nat.lt_of_le_of_lt (Nat.zero_le cur) hlt, rfl⟩

theorem C9_division_guard_witness :
    activeGuard (.status 1 2) = true
    ∧ ∃ cur endv, JobResp.status 1 2 = .status cur endv ∧ cur < endv ∧ 0 < endv
        ∧ jobProgress (.status 1 2) = 100 * cur / endv :=
  ⟨by decide, C9_division_guard (.status 1 2) (by decide)⟩

/-- C10: the destination description built by `getDestinationXML` carries the
volume's original leaf name unchanged — a filepath destination produces a
file source at `<filepath>/<vol_name>` and a pool destination produces a
volume source named `<vol_name>`. -/
theorem C10_destination_preserves_name (d : DomainVolumeDesc) (n fp pl : String)
    (hn : d.vol_name = some n) :
    getDestinationXML d none (some fp)
      = .ok ("<disk type=" ++ sqch ++ "file" ++ sqch ++ " device=" ++ sqch ++ "disk"
          ++ sqch ++ ">" ++ ("<driver name=" ++ sqch ++ "qemu" ++ sqch ++ " type="
          ++ sqch ++ "qcow2" ++ sqch ++ "/>") ++ ("<source file=" ++ sqch ++ fp ++ "/"
          ++ n ++ sqch ++ "/>") ++ "</disk>")
    ∧ getDestinationXML d (some pl) none
      = .ok ("<disk type=" ++ sqch ++ "volume" ++ sqch ++ " device=" ++ sqch ++ "disk"
          ++ sqch ++ ">" ++ ("<driver name=" ++ sqch ++ "qemu" ++ sqch ++ " type="
          ++ sqch ++ "qcow2" ++ sqch ++ "/>") ++ ("<source pool=" ++ sqch ++ pl
          ++ sqch ++ " volume=" ++ sqch ++ n ++ sqch ++ "/>") ++ "</disk>") := by
  constructor <;>
    simp [getDestinationXML, destGuard, hn, pyAttr, pyFStr, exc_ok_bind, exc_pure]

theorem C10_destination_preserves_name_witness :
    exF.vol_name = some "web01.qcow2"
    ∧ getDestinationXML exF none (some "/data/pool-b")
      = .ok ("<disk type=" ++ sqch ++ "file" ++ sqch ++ " device=" ++ sqch ++ "disk"
          ++ sqch ++ ">" ++ ("<driver name=" ++ sqch ++ "qemu" ++ sqch ++ " type="
          ++ sqch ++ "qcow2" ++ sqch ++ "/>") ++ ("<source file=" ++ sqch
          ++ "/data/pool-b" ++ "/" ++ "web01.qcow2" ++ sqch ++ "/>") ++ "</disk>")
    ∧ getDestinationXML exF (some "fast-ssd") none
      = .ok ("<disk type=" ++ sqch ++ "volume" ++ sqch ++ " device=" ++ sqch ++ "disk"
          ++ sqch ++ ">" ++ ("<driver name=" ++ sqch ++ "qemu" ++ sqch ++ " type="
          ++ sqch ++ "qcow2" ++ sqch ++ "/>") ++ ("<source pool=" ++ sqch ++ "fast-ssd"
          ++ sqch ++ " volume=" ++ sqch ++ "web01.qcow2" ++ sqch ++ "/>") ++ "</disk>") :=
  ⟨rfl,
   (C10_destination_preserves_name exF "web01.qcow2" "/data/pool-b" "fast-ssd" rfl).1,
   (C10_destination_preserves_name exF "web01.qcow2" "/data/pool-b" "fast-ssd" rfl).2⟩

/-- C2 (counterexample): `getVolumes` does not fail on a disk whose source
has neither a `file` nor a `pool` attribute — it returns a descriptor with
every field unset — nor on a disk whose `<target>` element lacks a `dev`
attribute — it keys the entry by `None`.  The claimed `MalformedDescriptor`
failure does not exist in the code. -/
theorem C2_counterexample :
    getVolumes [⟨some (some "vda"), some ⟨none, none, none⟩⟩]
      = .ok [(some "vda", {})]
    ∧ getVolumes [⟨some none, some ⟨some "/data/pool-a/web01.qcow2", none, none⟩⟩]
      = .ok [(none, exF)] :=
  ⟨rfl, rfl⟩

theorem dictInsert_fresh {K V : Type} [DecidableEq K] {m : List (K × V)} {k : K}
    (v : V) (h : k ∉ m.map Prod.fst) : dictInsert k v m = m ++ [(k, v)] := by
  induction m with
  | nil => rfl
  | cons kv rest ih =>
      have hk : ¬(kv.1 = k) := fun he => h (by simp [← he])
      have hrest : k ∉ rest.map Prod.fst := fun hm => h (by simp [hm])
      simp [dictInsert, hk, ih hrest]

/-- The entry `getVolumes` produces for a disk whose `<target>` and
`<source>` elements are both present. -/
def entryOfDisk (disk : DiskXML) : Option String × DomainVolumeDesc :=
  (disk.target.getD none, descOf (disk.source.getD ⟨none, none, none⟩))

theorem getVolumesLoop_ok :
    ∀ (disks : List DiskXML) (acc : List (Option String × DomainVolumeDesc)),
    (∀ disk ∈ disks, disk.target.isSome ∧ disk.source.isSome) →
    ((disks.map (fun dk => dk.target.getD none)).Nodup) →
    (∀ disk ∈ disks, disk.target.getD none ∉ acc.map Prod.fst) →
    getVolumesLoop disks acc = .ok (acc ++ disks.map entryOfDisk) := by
  intro disks
  induction disks with
  | nil => intro acc _ _ _; simp [getVolumesLoop]
  | cons disk rest ih =>
      intro acc hp hnd hdisj
      obtain ⟨ht, hs⟩ := hp disk (List.mem_cons_self disk rest)
      obtain ⟨tid, htid⟩ := Option.isSome_iff_exists.mp ht
      obtain ⟨se, hse⟩ := Option.isSome_iff_exists.mp hs
      have hentry : diskEntry disk = .ok (tid, descOf se) := by
        simp [diskEntry, htid, hse, pyAttr, exc_ok_bind, exc_pure]
      have htid' : disk.target.getD none = tid := by simp [htid]
      have hfresh : tid ∉ acc.map Prod.fst := by
        rw [← htid']
        exact hdisj disk (List.mem_cons_self disk rest)
      have hnd' : ((rest.map (fun dk => dk.target.getD none)).Nodup) :=
        (List.nodup_cons.mp (by simpa using hnd)).2
      have htidrest : tid ∉ rest.map (fun dk => dk.target.getD none) := by
        rw [← htid']
        exact (List.nodup_cons.mp (by simpa using hnd)).1
      have hdisj' : ∀ dk ∈ rest,
          dk.target.getD none ∉ (acc ++ [(tid, descOf se)]).map Prod.fst := by
        intro dk hdk
        simp only [List.map_append, List.mem_append]
        rintro (hin | hin)
        · exact hdisj dk (List.mem_cons_of_mem disk hdk) hin
        · have : dk.target.getD none = tid := by simpa using hin
          exact htidrest (this ▸ List.mem_map_of_mem (fun x => x.target.getD none) hdk)
      have hins : dictInsert tid (descOf se) acc = acc ++ [(tid, descOf se)] :=
        dictInsert_fresh (descOf se) hfresh
      have he : entryOfDisk disk = (tid, descOf se) := by
        simp [entryOfDisk, htid, hse]
      calc getVolumesLoop (disk :: rest) acc
          = getVolumesLoop rest (acc ++ [(tid, descOf se)]) := by
            simp [getVolumesLoop, hentry, exc_ok_bind, hins]
        _ = .ok ((acc ++ [(tid, descOf se)]) ++ rest.map entryOfDisk) :=
            ih _ (fun dk hdk => hp dk (List.mem_cons_of_mem disk hdk)) hnd' hdisj'
        _ = .ok (acc ++ (disk :: rest).map entryOfDisk) := by
            simp [he, List.append_assoc]

/-- C2 (amended): when every disk entry has both a `<target>` and a
`<source>` element and the target dev ids are distinct, `getVolumes`
succeeds and returns exactly one descriptor per disk entry, in document
order — even for entries whose source has neither a file nor a pool
attribute or whose target lacks a dev id (no `MalformedDescriptor`
validation exists). -/
theorem C2_amended_inventory (disks : List DiskXML)
    (hp : ∀ disk ∈ disks, disk.target.isSome ∧ disk.source.isSome)
    (hnd : ((disks.map (fun dk => dk.target.getD none)).Nodup)) :
    getVolumes disks = .ok (disks.map entryOfDisk) := by
  simpa [getVolumes] using getVolumesLoop_ok disks [] hp hnd (by simp)

theorem C2_amended_inventory_witness :
    (∀ disk ∈ ([⟨some (some "vda"),
          some ⟨some "/data/pool-a/web01.qcow2", none, none⟩⟩,
        ⟨some (some "vdb"), some ⟨none, none, none⟩⟩] : List DiskXML),
      disk.target.isSome ∧ disk.source.isSome)
    ∧ ((([⟨some (some "vda"),
          some ⟨some "/data/pool-a/web01.qcow2", none, none⟩⟩,
        ⟨some (some "vdb"), some ⟨none, none, none⟩⟩] : List DiskXML).map
          (fun dk => dk.target.getD none)).Nodup)
    ∧ getVolumes [⟨some (some "vda"),
          some ⟨some "/data/pool-a/web01.qcow2", none, none⟩⟩,
        ⟨some (some "vdb"), some ⟨none, none, none⟩⟩]
      = .ok (([⟨some (some "vda"),
          some ⟨some "/data/pool-a/web01.qcow2", none, none⟩⟩,
        ⟨some (some "vdb"), some ⟨none, none, none⟩⟩] : List DiskXML).map
          entryOfDisk) :=
  ⟨by decide, by decide, C2_amended_inventory _ (by decide) (by decide)⟩

/-- C5: if, at the start of a run, the hypervisor still reports a block-copy
job for a pending device (as it does after a `blockCopy` succeeded and the
previous process died before the pivot), then that device is in the ongoing
set computed by `checkForOngoingBlockCopy`, the session takes the resume
path (monitor + pivot of the ongoing devices, outcome `resumed`), and no
`launch` (`blockCopy`) event is issued for any device in that run. -/
theorem C5_resume_no_relaunch {K : Type} [DecidableEq K]
    (volumes pending migrated : List (K × DomainVolumeDesc))
    (pool filepath : Option String) (jobLen : K → Nat) (blockCopyOk : K → Bool)
    (proceed : Bool) (d : K)
    (hrm : removeVolumesAlreadyMigrated volumes pool filepath = .ok (pending, migrated))
    (hd : d ∈ pending.map Prod.fst)
    (hjob : jobLen d ≠ 0) :
    d ∈ checkForOngoingBlockCopy jobLen (pending.map Prod.fst)
    ∧ (mainSession volumes pool filepath jobLen blockCopyOk proceed).2 = .resumed
    ∧ ∀ k, Event.launch k ∉ (mainSession volumes pool filepath jobLen blockCopyOk proceed).1 := by
  have hmem : d ∈ checkForOngoingBlockCopy jobLen (pending.map Prod.fst) := by
    refine List.mem_filter.mpr ⟨hd, ?_⟩
    simpa using hjob
  have hlen : pending.length ≠ 0 := by
    intro h0
    rw [List.length_eq_zero.mp h0] at hd
    simp at hd
  have hongoing : (checkForOngoingBlockCopy jobLen (pending.map Prod.fst)).length ≠ 0 := by
    intro h0
    rw [List.length_eq_zero.mp h0] at hmem
    simp at hmem
  refine ⟨hmem, ?_, ?_⟩
  · simp [mainSession, hrm, hlen, hongoing]
  · intro k
    simp [mainSession, hrm, hlen, hongoing]

theorem C5_resume_no_relaunch_witness :
    removeVolumesAlreadyMigrated [("vda", exF)] none (some "/data/pool-b")
      = .ok ([("vda", exF)], [])
    ∧ ("vda" ∈ ([("vda", exF)] : List (String × DomainVolumeDesc)).map Prod.fst)
    ∧ ((fun _ : String => 1) "vda" ≠ 0)
    ∧ ("vda" ∈ checkForOngoingBlockCopy (fun _ : String => 1)
        (([("vda", exF)] : List (String × DomainVolumeDesc)).map Prod.fst)
      ∧ (mainSession [("vda", exF)] none (some "/data/pool-b")
          (fun _ => 1) (fun _ => true) true).2 = .resumed
      ∧ ∀ k, Event.launch k ∉ (mainSession [("vda", exF)] none (some "/data/pool-b")
          (fun _ => 1) (fun _ => true) true).1) :=
  ⟨rfl, by decide, by decide,
   C5_resume_no_relaunch [("vda", exF)] [("vda", exF)] [] none (some "/data/pool-b")
     (fun _ => 1) (fun _ => true) true "vda" rfl (by decide) (by decide)⟩

/-- C6: on a VM whose disks are all already at the requested destination, the
partitioner computes an empty pending set and the session terminates as a
no-op with exit status 0: no event at all is emitted (no backup write, no
undefine, no launch, no pivot, no define). -/
theorem C6_idempotent_noop {K : Type} [DecidableEq K]
    (volumes : List (K × DomainVolumeDesc)) (pool filepath : Option String)
    (jobLen : K → Nat) (blockCopyOk : K → Bool) (proceed : Bool)
    (hdest : exactlyOneDest pool filepath = true)
    (hwf : ∀ kv ∈ volumes, wfDesc kv.2 = true)
    (hnd : (volumes.map Prod.fst).Nodup)
    (hmig : ∀ kv ∈ volumes, migratedB pool filepath kv.2 = true) :
    removeVolumesAlreadyMigrated volumes pool filepath = .ok ([], volumes)
    ∧ mainSession volumes pool filepath jobLen blockCopyOk proceed = ([], .doneNoop)
    ∧ exitCode (mainSession volumes pool filepath jobLen blockCopyOk proceed).2 = 0 := by
  have hpart := removeVolumes_partition volumes pool filepath
    (destGuard_false_of_exactlyOne hdest) hwf hnd
  have hfilneg : volumes.filter (fun kv => !(migratedB pool filepath kv.2)) = [] := by
    refine List.filter_eq_nil_iff.mpr ?_
    intro kv hkv
    simp [hmig kv hkv]
  have hfilpos : volumes.filter (fun kv => migratedB pool filepath kv.2) = volumes :=
    List.filter_eq_self.mpr hmig
  have hrm : removeVolumesAlreadyMigrated volumes pool filepath = .ok ([], volumes) := by
    rw [hpart, hfilneg, hfilpos]
  refine ⟨hrm, ?_, ?_⟩
  · simp [mainSession, hrm]
  · simp [mainSession, hrm, exitCode]

theorem C6_idempotent_noop_witness :
    exactlyOneDest (some "fast-ssd") none = true
    ∧ (∀ kv ∈ ([("vdb", exP)] : List (String × DomainVolumeDesc)), wfDesc kv.2 = true)
    ∧ ((([("vdb", exP)] : List (String × DomainVolumeDesc)).map Prod.fst).Nodup)
    ∧ (∀ kv ∈ ([("vdb", exP)] : List (String × DomainVolumeDesc)),
        migratedB (some "fast-ssd") none kv.2 = true)
    ∧ (removeVolumesAlreadyMigrated [("vdb", exP)] (some "fast-ssd") none
        = .ok ([], [("vdb", exP)])
      ∧ mainSession [("vdb", exP)] (some "fast-ssd") none
          (fun _ : String => 0) (fun _ => true) true = ([], .doneNoop)
      ∧ exitCode (mainSession [("vdb", exP)] (some "fast-ssd") none
          (fun _ : String => 0) (fun _ => true) true).2 = 0) :=
  ⟨by decide, by decide, by decide, by decide,
   C6_idempotent_noop [("vdb", exP)] (some "fast-ssd") none (fun _ => 0)
     (fun _ => true) true (by decide) (by decide) (by decide) (by decide)⟩

theorem getDestinationXML_eq_file (d : DomainVolumeDesc) (pool : Option String)
    (fp n : String) (hdest : destGuard pool (some fp) = false)
    (hn : d.vol_name = some n) :
    getDestinationXML d pool (some fp)
      = .ok ("<disk type=" ++ sqch ++ "file" ++ sqch ++ " device=" ++ sqch ++ "disk"
          ++ sqch ++ ">" ++ ("<driver name=" ++ sqch ++ "qemu" ++ sqch ++ " type="
          ++ sqch ++ "qcow2" ++ sqch ++ "/>") ++ ("<source file=" ++ sqch ++ fp ++ "/"
          ++ n ++ sqch ++ "/>") ++ "</disk>") := by
  simp [getDestinationXML, hdest, hn, pyAttr, exc_ok_bind, exc_pure]

theorem getDestinationXML_eq_pool (d : DomainVolumeDesc) (pool : Option String)
    (n : String) (hdest : destGuard pool none = false)
    (hn : d.vol_name = some n) :
    getDestinationXML d pool none
      = .ok ("<disk type=" ++ sqch ++ "volume" ++ sqch ++ " device=" ++ sqch ++ "disk"
          ++ sqch ++ ">" ++ ("<driver name=" ++ sqch ++ "qemu" ++ sqch ++ " type="
          ++ sqch ++ "qcow2" ++ sqch ++ "/>") ++ ("<source pool=" ++ sqch
          ++ pyFStr pool ++ sqch ++ " volume=" ++ sqch ++ n ++ sqch ++ "/>")
          ++ "</disk>") := by
  simp [getDestinationXML, hdest, hn, pyAttr, exc_ok_bind, exc_pure]

theorem getDestinationXML_isOk {d : DomainVolumeDesc} {pool filepath : Option String}
    (hdest : destGuard pool filepath = false) (hn : d.vol_name.isSome) :
    ∃ s, getDestinationXML d pool filepath = .ok s := by
  obtain ⟨n, hn'⟩ := Option.isSome_iff_exists.mp hn
  cases filepath with
  | some fp => exact ⟨_, getDestinationXML_eq_file d pool fp n hdest hn'⟩
  | none => exact ⟨_, getDestinationXML_eq_pool d pool n hdest hn'⟩

theorem launchLoop_fail {K : Type} (blockCopyOk : K → Bool)
    (pool filepath : Option String) :
    ∀ (lpre : List (K × DomainVolumeDesc)) (B : K) (dB : DomainVolumeDesc)
      (lpost : List (K × DomainVolumeDesc)),
    (∀ kv ∈ lpre, ∃ s, getDestinationXML kv.2 pool filepath = .ok s) →
    (∃ s, getDestinationXML dB pool filepath = .ok s) →
    (∀ kv ∈ lpre, blockCopyOk kv.1 = true) →
    blockCopyOk B = false →
    launchLoop blockCopyOk pool filepath (lpre ++ (B, dB) :: lpost)
      = (lpre.map (fun kv => Event.launch kv.1) ++ [Event.launch B],
         some "libvirtError: blockCopy") := by
  intro lpre
  induction lpre with
  | nil =>
      intro B dB lpost _ hB hok hBfail
      obtain ⟨s, hs⟩ := hB
      simp [launchLoop, hs, hBfail]
  | cons kv rest ih =>
      intro B dB lpost hpre hB hok hBfail
      obtain ⟨k, d⟩ := kv
      obtain ⟨s, hs⟩ := hpre (k, d) (List.mem_cons_self _ rest)
      have hkok : blockCopyOk k = true := hok (k, d) (List.mem_cons_self _ rest)
      have := ih B dB lpost (fun kv' h' => hpre kv' (List.mem_cons_of_mem _ h'))
        hB (fun kv' h' => hok kv' (List.mem_cons_of_mem _ h')) hBfail
      simp [launchLoop, hs, hkok, this]

/-- C7: on a fresh run (no ongoing jobs, operator confirmed) in which
`blockCopy` succeeds for the devices before `B` (at least one) and fails for
`B`, the session stops at `B`: no pivot is issued for any device, no
redefine happens, no launch is attempted for any device after `B`, and the
run terminates with the hypervisor error and exit status 1 instead of
completing. -/
theorem C7_launch_failure_aborts {K : Type} [DecidableEq K]
    (volumes pending migrated lpre lpost : List (K × DomainVolumeDesc))
    (B : K) (dB : DomainVolumeDesc)
    (pool filepath : Option String) (jobLen : K → Nat) (blockCopyOk : K → Bool)
    (hrm : removeVolumesAlreadyMigrated volumes pool filepath = .ok (pending, migrated))
    (hsplit : pending = lpre ++ (B, dB) :: lpost)
    (_hpre : lpre ≠ [])
    (hok : ∀ kv ∈ lpre, blockCopyOk kv.1 = true)
    (hB : blockCopyOk B = false)
    (hnames : ∀ kv ∈ pending, kv.2.vol_name.isSome)
    (hnojob : ∀ k ∈ pending.map Prod.fst, jobLen k = 0)
    (hnd : (pending.map Prod.fst).Nodup) :
    (mainSession volumes pool filepath jobLen blockCopyOk true).2
        = .error "libvirtError: blockCopy"
    ∧ exitCode (mainSession volumes pool filepath jobLen blockCopyOk true).2 = 1
    ∧ (mainSession volumes pool filepath jobLen blockCopyOk true).2 ≠ .completed
    ∧ (∀ k, Event.pivot k ∉ (mainSession volumes pool filepath jobLen blockCopyOk true).1)
    ∧ Event.define ∉ (mainSession volumes pool filepath jobLen blockCopyOk true).1
    ∧ (∀ kv ∈ lpost,
        Event.launch kv.1 ∉ (mainSession volumes pool filepath jobLen blockCopyOk true).1) := by
  have hdest : destGuard pool filepath = false := removeVolumes_ok_destGuard hrm
  have hlen : pending.length ≠ 0 := by
    rw [hsplit]
    simp
  have hongoing : checkForOngoingBlockCopy jobLen (pending.map Prod.fst) = [] := by
    refine List.filter_eq_nil_iff.mpr ?_
    intro k hk
    simp [hnojob k hk]
  have hfail : launchLoop blockCopyOk pool filepath pending
      = (lpre.map (fun kv => Event.launch kv.1) ++ [Event.launch B],
         some "libvirtError: blockCopy") := by
    rw [hsplit]
    exact launchLoop_fail blockCopyOk pool filepath lpre B dB lpost
      (fun kv h => getDestinationXML_isOk hdest
        (hnames kv (hsplit ▸ List.mem_append_left _ h)))
      (getDestinationXML_isOk hdest
        (hnames (B, dB) (hsplit ▸ List.mem_append_right _ (List.mem_cons_self _ lpost))))
      hok hB
  have hmain : mainSession volumes pool filepath jobLen blockCopyOk true
      = (Event.backupWrite :: Event.undefine ::
          (lpre.map (fun kv => Event.launch kv.1) ++ [Event.launch B]),
         .error "libvirtError: blockCopy") := by
    simp [mainSession, hrm, hlen, hongoing, hfail]
  have hndkeys := hsplit ▸ hnd
  rw [List.map_append, List.map_cons] at hndkeys
  have hBnotpost : ∀ kv ∈ lpost, kv.1 ≠ B := by
    intro kv hkv he
    have h2 := (List.nodup_append.mp hndkeys).2.1
    rw [List.nodup_cons] at h2
    have hmm : kv.1 ∈ lpost.map Prod.fst := List.mem_map_of_mem Prod.fst hkv
    rw [he] at hmm
    exact h2.1 hmm
  have hnotpre : ∀ kv ∈ lpost, kv.1 ∉ lpre.map Prod.fst := by
    intro kv hkv hmem
    have hdisj := (List.nodup_append.mp hndkeys).2.2
    exact hdisj hmem (List.mem_cons_of_mem _ (List.mem_map_of_mem Prod.fst hkv))
  refine ⟨by rw [hmain], by rw [hmain]; rfl, by rw [hmain]; simp, ?_, ?_, ?_⟩
  · intro k
    rw [hmain]
    simp
  · rw [hmain]
    simp
  · intro kv hkv
    rw [hmain]
    simp only [List.mem_cons, List.mem_append, List.mem_map, List.mem_singleton,
      List.not_mem_nil, or_false]
    rintro (h | h | ⟨kv', hkv', he⟩ | h)
    · exact absurd h (by simp)
    · exact absurd h (by simp)
    · injection he with he'
      exact hnotpre kv hkv (he' ▸ List.mem_map_of_mem Prod.fst hkv')
    · injection h with h'
      exact hBnotpost kv hkv h'

theorem C7_launch_failure_aborts_witness :
    removeVolumesAlreadyMigrated [("vda", exF), ("vdb", exP)] none (some "/data/pool-b")
      = .ok ([("vda", exF), ("vdb", exP)], [])
    ∧ ([("vda", exF), ("vdb", exP)] : List (String × DomainVolumeDesc))
        = [("vda", exF)] ++ ("vdb", exP) :: []
    ∧ ([("vda", exF)] : List (String × DomainVolumeDesc)) ≠ []
    ∧ (∀ kv ∈ ([("vda", exF)] : List (String × DomainVolumeDesc)),
        (fun k => k = "vda") kv.1 = true)
    ∧ ((fun k => k = "vda") "vdb" = false)
    ∧ (∀ kv ∈ ([("vda", exF), ("vdb", exP)] : List (String × DomainVolumeDesc)),
        kv.2.vol_name.isSome)
    ∧ (∀ k ∈ ([("vda", exF), ("vdb", exP)] :
        List (String × DomainVolumeDesc)).map Prod.fst, (fun _ : String => 0) k = 0)
    ∧ ((([("vda", exF), ("vdb", exP)] :
        List (String × DomainVolumeDesc)).map Prod.fst).Nodup)
    ∧ ((mainSession [("vda", exF), ("vdb", exP)] none (some "/data/pool-b")
          (fun _ => 0) (fun k => k = "vda") true).2 = .error "libvirtError: blockCopy"
      ∧ exitCode (mainSession [("vda", exF), ("vdb", exP)] none (some "/data/pool-b")
          (fun _ => 0) (fun k => k = "vda") true).2 = 1
      ∧ (mainSession [("vda", exF), ("vdb", exP)] none (some "/data/pool-b")
          (fun _ => 0) (fun k => k = "vda") true).2 ≠ .completed
      ∧ (∀ k, Event.pivot k ∉ (mainSession [("vda", exF), ("vdb", exP)] none
          (some "/data/pool-b") (fun _ => 0) (fun k => k = "vda") true).1)
      ∧ Event.define ∉ (mainSession [("vda", exF), ("vdb", exP)] none
          (some "/data/pool-b") (fun _ => 0) (fun k => k = "vda") true).1
      ∧ (∀ kv ∈ ([] : List (String × DomainVolumeDesc)),
          Event.launch kv.1 ∉ (mainSession [("vda", exF), ("vdb", exP)] none
            (some "/data/pool-b") (fun _ => 0) (fun k => k = "vda") true).1)) :=
  ⟨rfl, rfl, by decide, by decide, by decide, by decide, by decide, by decide,
   C7_launch_failure_aborts [("vda", exF), ("vdb", exP)] [("vda", exF), ("vdb", exP)]
     [] [("vda", exF)] [] "vdb" exP none (some "/data/pool-b") (fun _ => 0)
     (fun k => k = "vda") rfl rfl (by decide) (by decide) (by decide) (by decide)
     (by decide) (by decide)⟩

/-! ### The polling loop (claim C8) -/

theorem tickAll_cons {K : Type} [DecidableEq K] (resp : K → JobResp)
    (done : List K) (x : K) (rest : List K) :
    tickAll resp done (x :: rest) =
      if x ∈ done then
        ((x, 100) :: (tickAll resp done rest).1, (tickAll resp done rest).2)
      else if activeGuard (resp x) then
        ((x, jobProgress (resp x)) :: (tickAll resp done rest).1,
         (tickAll resp done rest).2)
      else
        ((x, 100) :: (tickAll resp (done ++ [x]) rest).1,
         (tickAll resp (done ++ [x]) rest).2) := by
  by_cases hx : x ∈ done
  · simp only [tickAll, if_pos hx]
  · by_cases hg : activeGuard (resp x) = true
    · simp only [tickAll, if_neg hx, if_pos hg]
    · simp only [tickAll, if_neg hx, if_neg hg]

theorem tickAll_lookup {K : Type} [DecidableEq K] (resp : K → JobResp) (d : K) :
    ∀ (devs done : List K), d ∈ devs → devs.Nodup →
    lookupDev d (tickAll resp done devs).1
      = some (if d ∈ done then 100
              else if activeGuard (resp d) then jobProgress (resp d) else 100) := by
  intro devs
  induction devs with
  | nil => intro done hd _; simp at hd
  | cons x rest ih =>
      intro done hd hnd
      have hndr : rest.Nodup := (List.nodup_cons.mp hnd).2
      by_cases hdx : x = d
      · subst hdx
        rw [tickAll_cons]
        by_cases hxdone : x ∈ done
        · simp [hxdone, lookupDev]
        · by_cases hguard : activeGuard (resp x) = true
          · simp [hxdone, hguard, lookupDev]
          · simp [hxdone, hguard, lookupDev]
      · have hd' : d ∈ rest := by
          rcases List.mem_cons.mp hd with h | h
          · exact absurd h.symm hdx
          · exact h
        rw [tickAll_cons]
        by_cases hxdone : x ∈ done
        · simp only [if_pos hxdone, lookupDev, if_neg hdx]
          exact ih done hd' hndr
        · by_cases hguard : activeGuard (resp x) = true
          · simp only [if_neg hxdone, if_pos hguard, lookupDev, if_neg hdx]
            exact ih done hd' hndr
          · simp only [if_neg hxdone, if_neg hguard, lookupDev, if_neg hdx]
            rw [ih (done ++ [x]) hd' hndr]
            have hiff : (d ∈ done ++ [x]) ↔ d ∈ done := by
              constructor
              · intro hm
                rcases List.mem_append.mp hm with hm | hm
                · exact hm
                · exact absurd (show d = x by simpa using hm).symm hdx
              · intro hm
                exact List.mem_append_left _ hm
            simp only [hiff]

theorem tickAll_done_mem {K : Type} [DecidableEq K] (resp : K → JobResp) (d : K) :
    ∀ (devs done : List K),
    (d ∈ (tickAll resp done devs).2
      ↔ d ∈ done ∨ (d ∈ devs ∧ activeGuard (resp d) = false)) := by
  intro devs
  induction devs with
  | nil => intro done; simp [tickAll]
  | cons x rest ih =>
      intro done
      rw [tickAll_cons]
      by_cases hxdone : x ∈ done
      · simp only [if_pos hxdone]
        rw [ih done]
        constructor
        · rintro (h | ⟨h1, h2⟩)
          · exact Or.inl h
          · exact Or.inr ⟨List.mem_cons_of_mem x h1, h2⟩
        · rintro (h | ⟨h1, h2⟩)
          · exact Or.inl h
          · rcases List.mem_cons.mp h1 with h1 | h1
            · exact Or.inl (h1 ▸ hxdone)
            · exact Or.inr ⟨h1, h2⟩
      · by_cases hguard : activeGuard (resp x) = true
        · simp only [if_neg hxdone, if_pos hguard]
          rw [ih done]
          constructor
          · rintro (h | ⟨h1, h2⟩)
            · exact Or.inl h
            · exact Or.inr ⟨List.mem_cons_of_mem x h1, h2⟩
          · rintro (h | ⟨h1, h2⟩)
            · exact Or.inl h
            · rcases List.mem_cons.mp h1 with h1 | h1
              · rw [h1] at h2
                rw [h2] at hguard
                exact absurd hguard (by simp)
              · exact Or.inr ⟨h1, h2⟩
        · simp only [if_neg hxdone, if_neg hguard]
          rw [ih (done ++ [x])]
          have hguard' : activeGuard (resp x) = false := by
            simpa using hguard
          constructor
          · rintro (h | ⟨h1, h2⟩)
            · rcases List.mem_append.mp h with h | h
              · exact Or.inl h
              · have : d = x := by simpa using h
                exact Or.inr ⟨this ▸ List.mem_cons_self x rest, this ▸ hguard'⟩
            · exact Or.inr ⟨List.mem_cons_of_mem x h1, h2⟩
          · rintro (h | ⟨h1, h2⟩)
            · exact Or.inl (List.mem_append_left _ h)
            · rcases List.mem_cons.mp h1 with h1 | h1
              · exact Or.inl (List.mem_append_right _ (by simp [h1]))
              · exact Or.inr ⟨h1, h2⟩

theorem tickAll_done_sub {K : Type} [DecidableEq K] (resp : K → JobResp) :
    ∀ (devs done : List K) (y : K),
    y ∈ (tickAll resp done devs).2 → y ∈ done ∨ y ∈ devs := by
  intro devs
  induction devs with
  | nil => intro done y h; exact Or.inl (by simpa [tickAll] using h)
  | cons x rest ih =>
      intro done y h
      rw [tickAll_cons] at h
      by_cases hxdone : x ∈ done
      · rw [if_pos hxdone] at h
        rcases ih done y h with h | h
        · exact Or.inl h
        · exact Or.inr (List.mem_cons_of_mem x h)
      · by_cases hguard : activeGuard (resp x) = true
        · rw [if_neg hxdone, if_pos hguard] at h
          rcases ih done y h with h | h
          · exact Or.inl h
          · exact Or.inr (List.mem_cons_of_mem x h)
        · rw [if_neg hxdone, if_neg hguard] at h
          rcases ih (done ++ [x]) y h with h | h
          · rcases List.mem_append.mp h with h | h
            · exact Or.inl h
            · exact Or.inr (by simp [show y = x by simpa using h])
          · exact Or.inr (List.mem_cons_of_mem x h)

theorem tickAll_done_nodup {K : Type} [DecidableEq K] (resp : K → JobResp) :
    ∀ (devs done : List K), done.Nodup → (tickAll resp done devs).2.Nodup := by
  intro devs
  induction devs with
  | nil => intro done h; simpa [tickAll] using h
  | cons x rest ih =>
      intro done hnd
      rw [tickAll_cons]
      by_cases hxdone : x ∈ done
      · rw [if_pos hxdone]
        exact ih done hnd
      · by_cases hguard : activeGuard (resp x) = true
        · rw [if_neg hxdone, if_pos hguard]
          exact ih done hnd
        · rw [if_neg hxdone, if_neg hguard]
          refine ih (done ++ [x]) ?_
          simp [List.nodup_append, hnd, hxdone]

theorem waitAllGo_succ {K : Type} [DecidableEq K] (resp : Nat → K → JobResp)
    (devs : List K) (fuel t : Nat) (done : List K) :
    waitAllGo resp devs (fuel + 1) t done
      = if done.length < devs.length then
          (tickAll (resp t) done devs).1 ::
            waitAllGo resp devs fuel (t + 1) (tickAll (resp t) done devs).2
        else [] := by
  by_cases hlen : done.length < devs.length
  · simp only [waitAllGo, if_pos hlen]
  · simp only [waitAllGo, if_neg hlen]

theorem waitAllGo_lookup {K : Type} [DecidableEq K] (resp : Nat → K → JobResp)
    (devs : List K) (d : K) (T e : Nat) (c : Nat → Nat)
    (hnd : devs.Nodup) (hd : d ∈ devs)
    (hact : ∀ t, t < T → resp t d = .status (c t) e ∧ c t < e)
    (hcomp : ∀ t, T ≤ t → activeGuard (resp t d) = false) :
    ∀ (fuel t : Nat) (done : List K), (d ∈ done ↔ T < t) →
    ∀ i rep, (waitAllGo resp devs fuel t done).get? i = some rep →
      lookupDev d rep = some (if t + i < T then 100 * c (t + i) / e else 100) := by
  intro fuel
  induction fuel with
  | zero =>
      intro t done _ i rep h
      simp [waitAllGo] at h
  | succ fuel ih =>
      intro t done hdone i rep hget
      rw [waitAllGo_succ] at hget
      by_cases hlen : done.length < devs.length
      · rw [if_pos hlen] at hget
        cases i with
        | zero =>
            rw [List.get?_cons_zero] at hget
            have hrep : rep = (tickAll (resp t) done devs).1 :=
              (Option.some.injEq _ _ ▸ hget).symm
            subst hrep
            rw [tickAll_lookup (resp t) d devs done hd hnd, Nat.add_zero]
            by_cases hT : t < T
            · have hdnotdone : d ∉ done := fun h => absurd (hdone.mp h) (by omega)
              obtain ⟨hresp, hlt⟩ := hact t hT
              rw [if_neg hdnotdone, hresp]
              simp [activeGuard, jobProgress, hlt, hT]
            · by_cases hdd : d ∈ done
              · simp [hdd, hT]
              · rw [if_neg hdd, hcomp t (by omega)]
                simp [hT]
        | succ i =>
            rw [List.get?_cons_succ] at hget
            have hdone' : d ∈ (tickAll (resp t) done devs).2 ↔ T < t + 1 := by
              rw [tickAll_done_mem]
              constructor
              · rintro (h | ⟨_, h2⟩)
                · have := hdone.mp h
                  omega
                · by_cases hT : t < T
                  · obtain ⟨hresp, hlt⟩ := hact t hT
                    rw [hresp] at h2
                    simp [activeGuard] at h2
                    omega
                  · omega
              · intro h
                by_cases hT : T < t
                · exact Or.inl (hdone.mpr hT)
                · exact Or.inr ⟨hd, hcomp t (by omega)⟩
            have hres := ih (t + 1) ((tickAll (resp t) done devs).2) hdone' i rep hget
            have harr : t + 1 + i = t + (i + 1) := by omega
            rw [harr] at hres
            exact hres
      · rw [if_neg hlen] at hget
        simp at hget

/-- C8: for a device `d` monitored by `waitForAllBlockCopy` whose job
progresses normally (while active it reports `cur = c t` against a fixed
`end = e` with `cur < end` and non-decreasing `cur`, and from tick `T` on the
hypervisor reports the job absent or `cur >= end`), the percentage reported
at tick `i` is exactly `100 * c i // e` while the job is active and `100`
from tick `T` on (the device is then marked complete); the reported sequence
is non-decreasing across successive polls, and a reported value equals 100
exactly from the completion tick on. -/
theorem C8_progress_reporting {K : Type} [DecidableEq K]
    (resp : Nat → K → JobResp) (devs : List K) (d : K) (T e : Nat) (c : Nat → Nat)
    (fuel : Nat) (hnd : devs.Nodup) (hd : d ∈ devs)
    (hact : ∀ t, t < T → resp t d = .status (c t) e ∧ c t < e)
    (hmono : ∀ t1 t2, t1 ≤ t2 → t2 < T → c t1 ≤ c t2)
    (hcomp : ∀ t, T ≤ t → activeGuard (resp t d) = false) :
    (∀ i rep, (waitAllGo resp devs fuel 0 []).get? i = some rep →
        lookupDev d rep = some (if i < T then 100 * c i / e else 100))
    ∧ (∀ i j repi repj vi vj, i ≤ j →
        (waitAllGo resp devs fuel 0 []).get? i = some repi →
        (waitAllGo resp devs fuel 0 []).get? j = some repj →
        lookupDev d repi = some vi → lookupDev d repj = some vj → vi ≤ vj)
    ∧ (∀ i rep v, (waitAllGo resp devs fuel 0 []).get? i = some rep →
        lookupDev d rep = some v → (v = 100 ↔ T ≤ i)) := by
  have hbase : ∀ i rep, (waitAllGo resp devs fuel 0 []).get? i = some rep →
      lookupDev d rep = some (if i < T then 100 * c i / e else 100) := by
    intro i rep hget
    have := waitAllGo_lookup resp devs d T e c hnd hd hact hcomp fuel 0 []
      (by simp) i rep hget
    simpa using this
  have hlt100 : ∀ i, i < T → 100 * c i / e < 100 := by
    intro i hi
    obtain ⟨_, hlt⟩ := hact i hi
    have he : 0 < e := Nat.lt_of_le_of_lt (Nat.zero_le _) hlt
    rw [Nat.div_lt_iff_lt_mul he]
    exact mul_lt_mul_of_pos_left hlt (by norm_num)
  refine ⟨hbase, ?_, ?_⟩
  · intro i j repi repj vi vj hij hgi hgj hvi hvj
    have hvi' := hbase i repi hgi
    have hvj' := hbase j repj hgj
    rw [hvi] at hvi'
    rw [hvj] at hvj'
    have hvi'' : vi = if i < T then 100 * c i / e else 100 :=
      Option.some.injEq _ _ ▸ hvi'
    have hvj'' : vj = if j < T then 100 * c j / e else 100 :=
      Option.some.injEq _ _ ▸ hvj'
    rw [hvi'', hvj'']
    by_cases hiT : i < T
    · by_cases hjT : j < T
      · rw [if_pos hiT, if_pos hjT]
        exact Nat.div_le_div_right (Nat.mul_le_mul_left 100 (hmono i j hij hjT))
      · rw [if_pos hiT, if_neg hjT]
        exact Nat.le_of_lt (hlt100 i hiT)
    · rw [if_neg hiT, if_neg (by omega : ¬ j < T)]
  · intro i rep v hget hv
    have hv' := hbase i rep hget
    rw [hv] at hv'
    have hv'' : v = if i < T then 100 * c i / e else 100 :=
      Option.some.injEq _ _ ▸ hv'
    rw [hv'']
    by_cases hiT : i < T
    · rw [if_pos hiT]
      constructor
      · intro h
        exact absurd h (Nat.ne_of_lt (hlt100 i hiT))
      · intro h
        omega
    · rw [if_neg hiT]
      constructor
      · intro _
        omega
      · intro _
        rfl

/-- Example hypervisor responses for one device: a job at 0/10 then 3/10,
absent from tick 2 on. -/
def exResp : Nat → String → JobResp := fun t _ =>
  if t = 0 then .status 0 10 else if t = 1 then .status 3 10 else .absent

/-- The `cur` counter of `exResp`. -/
def exCur : Nat → Nat := fun t => if t = 0 then 0 else 3

theorem C8_progress_reporting_witness :
    (["vda"] : List String).Nodup
    ∧ "vda" ∈ (["vda"] : List String)
    ∧ (∀ t, t < 2 → exResp t "vda" = .status (exCur t) 10 ∧ exCur t < 10)
    ∧ (∀ t1 t2, t1 ≤ t2 → t2 < 2 → exCur t1 ≤ exCur t2)
    ∧ (∀ t, 2 ≤ t → activeGuard (exResp t "vda") = false)
    ∧ ((∀ i rep, (waitAllGo exResp ["vda"] 5 0 []).get? i = some rep →
          lookupDev "vda" rep = some (if i < 2 then 100 * exCur i / 10 else 100))
      ∧ (∀ i j repi repj vi vj, i ≤ j →
          (waitAllGo exResp ["vda"] 5 0 []).get? i = some repi →
          (waitAllGo exResp ["vda"] 5 0 []).get? j = some repj →
          lookupDev "vda" repi = some vi → lookupDev "vda" repj = some vj → vi ≤ vj)
      ∧ (∀ i rep v, (waitAllGo exResp ["vda"] 5 0 []).get? i = some rep →
          lookupDev "vda" rep = some v → (v = 100 ↔ 2 ≤ i))) := by
  have hact : ∀ t, t < 2 → exResp t "vda" = .status (exCur t) 10 ∧ exCur t < 10 := by
    intro t ht
    interval_cases t
    · exact ⟨rfl, by decide⟩
    · exact ⟨rfl, by decide⟩
  have hmono : ∀ t1 t2, t1 ≤ t2 → t2 < 2 → exCur t1 ≤ exCur t2 := by
    intro t1 t2 h12 h2
    interval_cases t2
    · interval_cases t1
      · decide
    · interval_cases t1 <;> decide
  have hcomp : ∀ t, 2 ≤ t → activeGuard (exResp t "vda") = false := by
    intro t ht
    have h0 : ¬(t = 0) := by omega
    have h1 : ¬(t = 1) := by omega
    simp only [exResp, if_neg h0, if_neg h1]
    rfl
  exact ⟨by decide, by decide, hact, hmono, hcomp,
    C8_progress_reporting exResp ["vda"] "vda" 2 10 exCur 5 (by decide) (by decide)
      hact hmono hcomp⟩
